import Mathlib

/-!
# AsioTcpIpEchoClient: the connection-management actor of `client` (Client.h)

A shallow embedding of the class `client` of `src/AsioTcpIpEchoClient/Client.h`.

* The object state (`stopped_`, `endpoints_`, `socket_`, `input_buffer_`, `deadline_`,
  `heartbeat_timer_`) is the structure `Client`.
* Every member function is a Lean function from a state to a new state and the list of
  events (console output, operations handed to Asio, calls of `stop` and `start_write`)
  it produced, in program order.
* What the C++ code receives from its environment is an argument: the error code and byte
  count of a completion, the current time of `steady_timer::clock_type::now()` (in seconds
  since the epoch of the clock), the token typed at the console, the error code left by
  `write_some`.
* The part of Asio the code relies on is modelled by `Socket` and `SteadyTimer`: an
  asynchronous operation is outstanding from the call that issues it until its completion
  handler runs; closing a socket or cancelling a timer does not remove the handler, it only
  forces the operation to complete.
-/

namespace AsioClient

/-- One `char` of a `std::string`, as its code. -/
abbrev Byte := Nat

/-- One entry of `tcp::resolver::results_type`. -/
structure Endpoint where
  address : Nat
  port : Nat
deriving DecidableEq, Repr

/-- A `steady_timer::time_point`: a number of seconds since the epoch of the clock, or
`time_point::max()`, which the clock never reaches. -/
inductive TimePoint where
  | time (t : Nat)
  | max
deriving DecidableEq, Repr

/-- The comparison `expiry <= now` of `check_deadline`, with `now` a reading of the clock. -/
def TimePoint.le_now : TimePoint → Nat → Bool
  | .time t, now => decide (t ≤ now)
  | .max, _ => false

/-- A `boost::asio::steady_timer`: its expiry, the number of asynchronous waits armed on it,
and the number of waits that were forced to complete (`operation_aborted`) and whose handler
has not run yet. -/
structure SteadyTimer where
  expiry : TimePoint
  waiting : Nat
  aborted : Nat
deriving DecidableEq, Repr

/-- The member `cancel()`: every armed wait is forced to complete. -/
def SteadyTimer.cancel (t : SteadyTimer) : SteadyTimer :=
  { t with waiting := 0, aborted := t.aborted + t.waiting }

/-- The member `expires_at(tp)`: armed waits are cancelled and the expiry is set. -/
def SteadyTimer.expires_at (t : SteadyTimer) (tp : TimePoint) : SteadyTimer :=
  { t.cancel with expiry := tp }

/-- The member `expires_after(seconds)`, called when the clock reads `now`. -/
def SteadyTimer.expires_after (t : SteadyTimer) (now seconds : Nat) : SteadyTimer :=
  t.expires_at (.time (now + seconds))

/-- The member `async_wait(handler)`: one more wait is armed. -/
def SteadyTimer.async_wait (t : SteadyTimer) : SteadyTimer :=
  { t with waiting := t.waiting + 1 }

/-- An asynchronous operation issued on the socket. A connect remembers the endpoint
iterator bound into its handler (a position in `endpoints_`). -/
inductive SocketOp where
  | connect (endpoint_iter : Nat)
  | read_until
  | write
deriving DecidableEq, Repr

/-- The `tcp::socket`: whether it is open, and the operations issued on it whose handler has
not run yet, oldest first. -/
structure Socket where
  is_open : Bool
  ops : List SocketOp
deriving DecidableEq, Repr

/-- The member `close()`. Outstanding operations are cancelled, which means their handlers
will run with an error; they stay outstanding until then. -/
def Socket.close (k : Socket) : Socket :=
  { k with is_open := false }

/-- The member `async_connect(endpoint, handler)`: the socket is opened and the connect is
outstanding. -/
def Socket.async_connect (k : Socket) (endpoint_iter : Nat) : Socket :=
  { is_open := true, ops := k.ops ++ [.connect endpoint_iter] }

/-- The call `boost::asio::async_read_until(socket_, ..., handler)`. -/
def Socket.async_read_until (k : Socket) : Socket :=
  { k with ops := k.ops ++ [.read_until] }

/-- The call `boost::asio::async_write(socket_, ..., handler)`. -/
def Socket.async_write (k : Socket) : Socket :=
  { k with ops := k.ops ++ [.write] }

/-- A line written to `std::cout`. -/
inductive Output where
  | trying (ep : Endpoint)
  | connect_timed_out
  | connect_error
  | connected (ep : Option Endpoint)
  | echo (line : List Byte)
  | receive_error
  | send_prompt
  | heartbeat_error
deriving DecidableEq, Repr

/-- What a member function does that is visible outside the object state. -/
inductive Event where
  | cout (o : Output)
  | async_connect (ep : Endpoint)
  | async_read_until
  | async_write (data : List Byte)
  | write_some (data : List Byte) (ignored_error : Bool)
  | async_wait
  | stop
  | start_write
deriving DecidableEq, Repr

/-- The data members of `client`. -/
structure Client where
  stopped : Bool
  endpoints : List Endpoint
  socket : Socket
  input_buffer : List Byte
  deadline : SteadyTimer
  heartbeat_timer : SteadyTimer
deriving DecidableEq, Repr

/-- The constructor `client(io_context)`: `stopped_ = false`, nothing resolved, a closed
socket, an empty buffer, and two timers at their default expiry (the epoch) with no wait. -/
def Client.init : Client :=
  { stopped := false
    endpoints := []
    socket := { is_open := false, ops := [] }
    input_buffer := []
    deadline := { expiry := .time 0, waiting := 0, aborted := 0 }
    heartbeat_timer := { expiry := .time 0, waiting := 0, aborted := 0 } }

/-- The call `std::string::substr(pos, count)`: it throws `std::out_of_range` (here `none`)
when `pos` exceeds the size, and otherwise returns at most `count` characters from `pos`. -/
def substr (str : List Byte) (pos count : Nat) : Option (List Byte) :=
  if pos > str.length then none else some ((str.drop pos).take count)

/-- The call `std::string::erase(0, count)`. -/
def erase_front (str : List Byte) (count : Nat) : List Byte :=
  str.drop count

/-- The member `client::stop` (Client.h lines 44-51). -/
def Client.stop (s : Client) : Client × List Event :=
  ({ s with
      stopped := true
      socket := s.socket.close
      deadline := s.deadline.cancel
      heartbeat_timer := s.heartbeat_timer.cancel },
   [Event.stop])

/-- The member `client::start_write` (lines 153-161): one byte, a newline, is written
asynchronously. -/
def Client.start_write (s : Client) : Client × List Event :=
  if s.stopped then (s, [Event.start_write])
  else ({ s with socket := s.socket.async_write },
        [Event.start_write, Event.async_write [10]])

/-- The member `client::start_read` (lines 118-124). -/
def Client.start_read (s : Client) : Client × List Event :=
  ({ s with socket := s.socket.async_read_until }, [Event.async_read_until])

/-- The member `client::start_connect` (lines 54-73). The iterator is a position in
`endpoints_`; it differs from `end()` exactly when it designates an endpoint. -/
def Client.start_connect (endpoint_iter now : Nat) (s : Client) : Client × List Event :=
  match s.endpoints[endpoint_iter]? with
  | some ep =>
    ({ s with
        deadline := s.deadline.expires_after now 60
        socket := s.socket.async_connect endpoint_iter },
     [Event.cout (.trying ep), Event.async_connect ep])
  | none => s.stop

/-- The member `client::handle_connect` (lines 75-116). -/
def Client.handle_connect (error : Bool) (endpoint_iter now : Nat) (s : Client) :
    Client × List Event :=
  if s.stopped then (s, [])
  else if !s.socket.is_open then
    let r := Client.start_connect (endpoint_iter + 1) now s
    (r.1, Event.cout .connect_timed_out :: r.2)
  else if error then
    let r := Client.start_connect (endpoint_iter + 1) now { s with socket := s.socket.close }
    (r.1, Event.cout .connect_error :: r.2)
  else
    let r := s.start_write
    (r.1, Event.cout (.connected s.endpoints[endpoint_iter]?) :: r.2)

/-- The member `client::handle_read` (lines 126-151). The result is `none` when
`substr` throws. -/
def Client.handle_read (error : Bool) (n : Nat) (s : Client) : Option (Client × List Event) :=
  if s.stopped then some (s, [])
  else if !error then
    match substr s.input_buffer 1 n with
    | none => none
    | some line =>
      let r := Client.start_write { s with input_buffer := erase_front s.input_buffer n }
      some (r.1, (if !line.isEmpty then [Event.cout (.echo line)] else []) ++ r.2)
  else
    let r := s.stop
    some (r.1, Event.cout .receive_error :: r.2)

/-- The array `char message[128] = { 0, }` after `cin >> message` (lines 173-175) has
extracted the characters `token`: the token, its terminating zero, and the zeros of the
initialisation. The extraction writes `token.length + 1` characters; when they do not fit the
128 elements the array is overrun and the behaviour is undefined (`none`). Where the
extraction is bounded by the size of the array (C++20), no token longer than 127 characters
is ever extracted. -/
def cin_extract (token : List Byte) : Option (List Byte) :=
  if token.length < 128 then some (token ++ List.replicate (128 - token.length) 0) else none

/-- The call `strnlen_s(str, numberOfElements)`: the number of characters before the first
zero among the first `numberOfElements`, or `numberOfElements` when there is none. -/
def strnlen_s (str : List Byte) (numberOfElements : Nat) : Nat :=
  ((str.take numberOfElements).takeWhile (fun b => b != 0)).length

/-- The call `strcat_s(dest, src)` on an array `dest`: the characters of `src` before its
first zero, and a terminating zero, are written from the first zero of `dest` on. When
`dest` holds no zero or has no room for them the call does not return normally (`none`).
The elements after the written terminator are kept as they were; `handle_write` never reads
them. -/
def strcat_s (dest src : List Byte) : Option (List Byte) :=
  if strnlen_s dest dest.length + (src.takeWhile (fun b => b != 0)).length < dest.length then
    some (dest.take (strnlen_s dest dest.length) ++ src.takeWhile (fun b => b != 0) ++
      0 :: dest.drop (strnlen_s dest dest.length + (src.takeWhile (fun b => b != 0)).length + 1))
  else none

/-- The bytes `boost::asio::buffer(message, nMsgLen + 1)` that `handle_write` passes to
`write_some` (lines 173-179) when `cin >> message` extracts `token`: the array is filled,
`strcat_s(message, "\0")` appends the string of the literal (the bytes 0, 0), `nMsgLen` is
`strnlen_s(message, 128 - 1)`, and the first `nMsgLen + 1` elements of the array are sent. -/
def outbound_message (token : List Byte) : Option (List Byte) :=
  match cin_extract token with
  | none => none
  | some extracted =>
    match strcat_s extracted [0, 0] with
    | none => none
    | some message => some (message.take (strnlen_s message (128 - 1) + 1))

/-- The member `client::handle_write` (lines 163-189). `token` is what `cin >> message`
extracts from the console; the error code `ignored_error` that `write_some` leaves is not
looked at. The result is `none` when the token overruns the array `message`. -/
def Client.handle_write (error : Bool) (token : List Byte) (ignored_error : Bool)
    (s : Client) : Option (Client × List Event) :=
  if s.stopped then some (s, [])
  else if !error then
    match outbound_message token with
    | none => none
    | some data =>
      let r := s.start_read
      some (r.1, [Event.cout .send_prompt, Event.write_some data ignored_error] ++ r.2)
  else
    let r := s.stop
    some (r.1, Event.cout .heartbeat_error :: r.2)

/-- The member `client::check_deadline` (lines 191-213). -/
def Client.check_deadline (now : Nat) (s : Client) : Client × List Event :=
  if s.stopped then (s, [])
  else
    let s1 :=
      if s.deadline.expiry.le_now now then
        { s with socket := s.socket.close, deadline := s.deadline.expires_at .max }
      else s
    ({ s1 with deadline := s1.deadline.async_wait }, [Event.async_wait])

/-- The member `client::start` (lines 30-39). -/
def Client.start (endpoints : List Endpoint) (now : Nat) (s : Client) : Client × List Event :=
  let r := Client.start_connect 0 now { s with endpoints := endpoints }
  ({ r.1 with deadline := r.1.deadline.async_wait }, r.2 ++ [Event.async_wait])

/-- A completion handed to the client by the `io_context`, with what the environment
decides about it: the error code, the clock reading, the bytes a read appended to
`input_buffer_` and the count it reports, the console token and the outcome of `write_some`. -/
inductive Completion where
  | connect (error : Bool) (now : Nat)
  | read (data : List Byte) (error : Bool) (n : Nat)
  | write (error : Bool) (token : List Byte) (ignored_error : Bool)
  | wait (now : Nat)
deriving DecidableEq, Repr

/-- The oldest outstanding connect, with the iterator bound into its handler, and the
operations that stay outstanding. -/
def take_connect : List SocketOp → Option (Nat × List SocketOp)
  | [] => none
  | .connect endpoint_iter :: ops => some (endpoint_iter, ops)
  | op :: ops => (take_connect ops).map (fun r => (r.1, op :: r.2))

/-- The `io_context` runs one completion handler: the operation it completes must be
outstanding and stops being so, then the bound member function runs. A wait handler is
`check_deadline`; it runs for a wait that was aborted or for one that was armed. The result
is `none` when no such operation is outstanding or the handler throws. -/
def deliver (c : Completion) (s : Client) : Option (Client × List Event) :=
  match c with
  | .connect error now =>
    match take_connect s.socket.ops with
    | none => none
    | some (endpoint_iter, ops) =>
      some (Client.handle_connect error endpoint_iter now
        { s with socket := { s.socket with ops := ops } })
  | .read data error n =>
    if SocketOp.read_until ∈ s.socket.ops then
      Client.handle_read error n
        { s with
            socket := { s.socket with ops := s.socket.ops.erase .read_until }
            input_buffer := s.input_buffer ++ data }
    else none
  | .write error token ignored_error =>
    if SocketOp.write ∈ s.socket.ops then
      Client.handle_write error token ignored_error
        { s with socket := { s.socket with ops := s.socket.ops.erase .write } }
    else none
  | .wait now =>
    if 0 < s.deadline.aborted then
      some (Client.check_deadline now
        { s with deadline := { s.deadline with aborted := s.deadline.aborted - 1 } })
    else if 0 < s.deadline.waiting then
      some (Client.check_deadline now
        { s with deadline := { s.deadline with waiting := s.deadline.waiting - 1 } })
    else none

/-- The `io_context` runs a sequence of completion handlers, from state `s`; the result is
the final state and the events of all the handlers, in order. -/
def run : List Completion → Client → Option (Client × List Event)
  | [], s => some (s, [])
  | c :: cs, s =>
    match deliver c s with
    | none => none
    | some r =>
      match run cs r.1 with
      | none => none
      | some r2 => some (r2.1, r.2 ++ r2.2)

/-- The endpoints of the connect attempts of a trace, in the order they were issued. -/
def connects : List Event → List Endpoint
  | [] => []
  | .async_connect ep :: tr => ep :: connects tr
  | _ :: tr => connects tr

/-- How a connect attempt ends: the handler finds no error and the socket open (`success`),
an error and the socket open (`failure`), or the socket closed by the watchdog (`timeout`,
with whatever error code the completion carries). -/
inductive Outcome where
  | success
  | failure
  | timeout (error : Bool)
deriving DecidableEq, Repr

/-- One connect attempt as the environment resolves it: the seconds after the attempt was
issued at which the watchdog wakes while the deadline of 60 seconds has not passed (`wakes`:
the handler of a wait aborted by `expires_after`, or any other early wake), its outcome, and
the seconds that pass (`delay`) before the handler runs, counted from the moment the attempt
was issued for `success` and `failure` and from the expiry of the deadline for `timeout`. -/
structure Attempt where
  wakes : List (Fin 60)
  outcome : Outcome
  delay : Nat
deriving DecidableEq, Repr

/-- The clock reading at which the handler of an attempt issued at `issued` runs. -/
def Attempt.finish (a : Attempt) (issued : Nat) : Nat :=
  match a.outcome with
  | .timeout _ => issued + 60 + a.delay
  | _ => issued + a.delay

/-- The watchdog wakes of an attempt issued at `issued` that come before its deadline. -/
def Attempt.early (a : Attempt) (issued : Nat) : List Completion :=
  a.wakes.map (fun w => Completion.wait (issued + w.val))

/-- The completions that resolve an attempt issued at `issued`. On a timeout the watchdog
wakes with the deadline passed and then the handler of the aborted connect runs. -/
def Attempt.resolution (a : Attempt) (issued : Nat) : List Completion :=
  match a.outcome with
  | .success => [.connect false (a.finish issued)]
  | .failure => [.connect true (a.finish issued)]
  | .timeout error => [.wait (a.finish issued), .connect error (a.finish issued)]

/-- All the completions of an attempt issued at `issued`, in order. -/
def Attempt.completions (a : Attempt) (issued : Nat) : List Completion :=
  a.early issued ++ a.resolution issued

/-- The completions of a sequence of attempts, each issued when the previous one resolved. -/
def schedule : List Attempt → Nat → List Completion
  | [], _ => []
  | a :: rest, issued => a.completions issued ++ schedule rest (a.finish issued)

/-- The program `start(endpoints)` at clock reading `now`, on a fresh client, followed by the
completions `cs`. -/
def session (endpoints : List Endpoint) (now : Nat) (cs : List Completion) :
    Option (Client × List Event) :=
  match run cs (Client.start endpoints now Client.init).1 with
  | none => none
  | some r => some (r.1, (Client.start endpoints now Client.init).2 ++ r.2)

/-- The state after `stop()` has been called `n` times in a row. -/
def stop_times : Nat → Client → Client
  | 0, s => s
  | n + 1, s => stop_times n s.stop.1

/-- The lines handed to the output collaborator (`cout << "Echo message from Server :" <<
line`) in a trace, in order. -/
def echoes : List Event → List (List Byte)
  | [] => []
  | .cout (.echo line) :: tr => line :: echoes tr
  | _ :: tr => echoes tr

/-- The two asynchronous operations of the exchange loop. -/
inductive Exchange where
  | write
  | read
deriving DecidableEq, Repr

/-- The asynchronous writes and reads issued in a trace, in order. -/
def exchanges : List Event → List Exchange
  | [] => []
  | .async_write _ :: tr => .write :: exchanges tr
  | .async_read_until :: tr => .read :: exchanges tr
  | _ :: tr => exchanges tr

/-- Whether a sequence of writes and reads alternates strictly, beginning with `next`. -/
def alternates_from : Exchange → List Exchange → Bool
  | _, [] => true
  | .write, .write :: l => alternates_from .read l
  | .read, .read :: l => alternates_from .write l
  | _, _ => false

/-- Whether a completion is that of a connect. -/
def Completion.is_connect : Completion → Bool
  | .connect _ _ => true
  | _ => false

/-- Whether a completion is that of a read. -/
def Completion.is_read : Completion → Bool
  | .read _ _ _ => true
  | _ => false

/-- Whether a completion is that of an asynchronous write. -/
def Completion.is_write : Completion → Bool
  | .write _ _ _ => true
  | _ => false

/-- The invariant of the sessions: the writes and reads issued so far alternate, and the
outstanding socket operations are none, or one connect before any write or read was
issued, or the write or the read that was issued last. -/
def Inv (s : Client) (tr : List Event) : Prop :=
  alternates_from .write (exchanges tr) = true ∧
    (s.socket.ops = [] ∨
     (∃ i, s.socket.ops = [.connect i] ∧ exchanges tr = []) ∨
     (s.socket.ops = [.write] ∧ (exchanges tr).length % 2 = 1) ∨
     (s.socket.ops = [.read_until] ∧ (exchanges tr).length % 2 = 0))

/-- The states in which the attempt on endpoint number `i`, issued at clock reading `t`, is
the one outstanding operation. -/
def Connecting (eps : List Endpoint) (i t : Nat) (s : Client) : Prop :=
  s.stopped = false ∧ s.endpoints = eps ∧ s.socket = { is_open := true, ops := [.connect i] } ∧
    s.deadline.expiry = .time (t + 60) ∧ 0 < s.deadline.waiting + s.deadline.aborted

/-- A first candidate address, for the concrete sessions below. -/
def endpoint_a : Endpoint := { address := 1, port := 7 }

/-- A second candidate address. -/
def endpoint_b : Endpoint := { address := 2, port := 7 }

/-- A client whose connection is established, as a completion handler of the exchange loop
finds it: not stopped, the socket open, the operation of the handler no longer outstanding,
the bytes `buffer` in `input_buffer_`, the watchdog armed. -/
def connected (buffer : List Byte) : Client :=
  { stopped := false
    endpoints := [endpoint_a]
    socket := { is_open := true, ops := [] }
    input_buffer := buffer
    deadline := { expiry := .time 60, waiting := 1, aborted := 0 }
    heartbeat_timer := { expiry := .time 0, waiting := 0, aborted := 0 } }

/-- An attempt that is refused two seconds after it was issued. -/
def refused : Attempt := { wakes := [], outcome := .failure, delay := 2 }

/-- An attempt during which the watchdog wakes at once, then again three seconds after the
deadline and closes the socket; the handler of the connect runs with an error. -/
def timed_out : Attempt := { wakes := [0], outcome := .timeout true, delay := 3 }

/-- An attempt that succeeds after one second, the watchdog having woken at once. -/
def succeeded : Attempt := { wakes := [0], outcome := .success, delay := 1 }

/-- The connected client after the watchdog closed its socket, as the handler of a write
that had completed before the close finds it. -/
def watchdog_closed : Client :=
  { connected [] with socket := (connected []).socket.close }

/-- The state in which `start` on `endpoint_a` at second 0 and a connect that succeeds
leave the client: the first write of the exchange loop is outstanding. -/
def awaiting_outbound : Client :=
  { connected [] with socket := { is_open := true, ops := [SocketOp.write] } }

/-- The events of `start` on `endpoint_a` and of the handler of a connect that succeeds. -/
def awaiting_outbound_trace : List Event :=
  [Event.cout (Output.trying endpoint_a), Event.async_connect endpoint_a, Event.async_wait,
   Event.cout (Output.connected (some endpoint_a)), Event.start_write, Event.async_write [10]]

/-! ## Theorems -/

theorem connects_append (a b : List Event) : connects (a ++ b) = connects a ++ connects b := by
  induction a with
  | nil => rfl
  | cons e a ih => cases e <;> simp [connects, ih]

theorem run_cons (c : Completion) (cs : List Completion) (s : Client) :
    run (c :: cs) s =
      match deliver c s with
      | none => none
      | some r =>
        match run cs r.1 with
        | none => none
        | some r2 => some (r2.1, r.2 ++ r2.2) := rfl

theorem run_append (cs ds : List Completion) (s : Client) :
    run (cs ++ ds) s =
      match run cs s with
      | none => none
      | some r =>
        match run ds r.1 with
        | none => none
        | some r2 => some (r2.1, r.2 ++ r2.2) := by
  induction cs generalizing s with
  | nil =>
    rw [List.nil_append]
    cases h : run ds s <;> simp [run, h]
  | cons c cs ih =>
    rw [List.cons_append, run_cons, run_cons]
    cases h : deliver c s with
    | none => rfl
    | some r =>
      simp only [ih]
      cases h1 : run cs r.1 with
      | none => rfl
      | some r1 =>
        cases h2 : run ds r1.1 with
        | none => simp [h2]
        | some r2 => simp [h2]

theorem deliver_early_wake (eps : List Endpoint) (i t : Nat) (s : Client) (w : Fin 60)
    (h : Connecting eps i t s) :
    ∃ r, deliver (.wait (t + w.val)) s = some r ∧ Connecting eps i t r.1 ∧
      r.2 = [Event.async_wait] := by
  obtain ⟨stopped, endpoints, ⟨is_open, ops⟩, buf, ⟨expiry, waiting, aborted⟩, hb⟩ := s
  obtain ⟨h1, h2, h3, h4, h5⟩ := h
  simp only at h1 h2 h3 h4 h5
  simp only [Socket.mk.injEq] at h3
  obtain ⟨h3a, h3b⟩ := h3
  subst h1 h2 h3a h3b h4
  have hw := w.isLt
  have hle : TimePoint.le_now (.time (t + 60)) (t + w.val) = false := by
    simp [TimePoint.le_now]
  by_cases hab : 0 < aborted
  · simp [deliver, hab, Client.check_deadline, hle, SteadyTimer.async_wait, Connecting]
  · have hwt : 0 < waiting := by omega
    simp [deliver, hab, hwt, Client.check_deadline, hle, SteadyTimer.async_wait, Connecting]

theorem run_early (eps : List Endpoint) (i t : Nat) :
    ∀ (ws : List (Fin 60)) (s : Client), Connecting eps i t s →
      ∃ r, run (ws.map (fun w => Completion.wait (t + w.val))) s = some r ∧
        Connecting eps i t r.1 ∧ connects r.2 = [] ∧ Event.start_write ∉ r.2 ∧
        Event.stop ∉ r.2 := by
  intro ws
  induction ws with
  | nil =>
    intro s h
    exact ⟨(s, []), rfl, h, rfl, by simp, by simp⟩
  | cons w ws ih =>
    intro s h
    obtain ⟨r1, hr1, hc1, he1⟩ := deliver_early_wake eps i t s w h
    obtain ⟨r2, hr2, hc2, hn2, hs2, hst2⟩ := ih r1.1 hc1
    refine ⟨(r2.1, r1.2 ++ r2.2), ?_, hc2, ?_, ?_, ?_⟩
    · rw [List.map_cons, run_cons, hr1]
      simp only [hr2]
    · simp [connects_append, he1, hn2, connects]
    · simp [he1, hs2]
    · simp [he1, hst2]

theorem run_resolution_fails (eps : List Endpoint) (i t : Nat) (s : Client)
    (a : Attempt) (h : Connecting eps i t s) (ha : a.outcome ≠ .success) :
    ∃ r, run (a.resolution t) s = some r ∧
      Event.start_write ∉ r.2 ∧
      ((∃ ep, eps[i + 1]? = some ep ∧ Connecting eps (i + 1) (a.finish t) r.1 ∧
          connects r.2 = [ep] ∧ Event.stop ∉ r.2) ∨
       (eps[i + 1]? = none ∧ r.1.stopped = true ∧ connects r.2 = [] ∧
          r.2.count Event.stop = 1)) := by
  obtain ⟨stopped, endpoints, ⟨is_open, ops⟩, buf, ⟨expiry, waiting, aborted⟩, hb⟩ := s
  obtain ⟨h1, h2, h3, h4, h5⟩ := h
  simp only at h1 h2 h3 h4 h5
  simp only [Socket.mk.injEq] at h3
  obtain ⟨h3a, h3b⟩ := h3
  subst h1 h2 h3a h3b h4
  obtain ⟨ws, o, d⟩ := a
  cases o with
  | success => exact absurd rfl ha
  | failure =>
    cases hep : endpoints[i + 1]? with
    | none =>
      simp [Attempt.resolution, run, deliver, take_connect, Client.handle_connect,
          Client.start_connect, hep, Socket.close, Client.stop, connects]
    | some ep =>
      simp [Attempt.resolution, run, deliver, take_connect, Client.handle_connect,
          Client.start_connect, hep, Socket.close, Client.stop, connects, Connecting,
          Socket.async_connect, SteadyTimer.expires_after, SteadyTimer.expires_at,
          SteadyTimer.cancel, Attempt.finish]
      omega
  | timeout error =>
    have hle : TimePoint.le_now (.time (t + 60)) (t + 60 + d) = true := by
      simp [TimePoint.le_now]
    cases hep : endpoints[i + 1]? with
    | none =>
      by_cases hab : 0 < aborted
      · simp [Attempt.resolution, run, deliver, take_connect, Client.handle_connect,
          Client.start_connect, hep, Socket.close, Client.stop, connects, hab,
          Client.check_deadline, hle, Attempt.finish, SteadyTimer.expires_at,
          SteadyTimer.cancel, SteadyTimer.async_wait]
      · have hw : 0 < waiting := by omega
        simp [Attempt.resolution, run, deliver, take_connect, Client.handle_connect,
          Client.start_connect, hep, Socket.close, Client.stop, connects, hab, hw,
          Client.check_deadline, hle, Attempt.finish, SteadyTimer.expires_at,
          SteadyTimer.cancel, SteadyTimer.async_wait]
    | some ep =>
      by_cases hab : 0 < aborted
      · simp [Attempt.resolution, run, deliver, take_connect, Client.handle_connect,
          Client.start_connect, hep, Socket.close, Client.stop, connects, hab,
          Client.check_deadline, hle, Attempt.finish, SteadyTimer.expires_at,
          SteadyTimer.cancel, SteadyTimer.async_wait, Connecting, Socket.async_connect,
          SteadyTimer.expires_after]
      · have hw : 0 < waiting := by omega
        simp [Attempt.resolution, run, deliver, take_connect, Client.handle_connect,
          Client.start_connect, hep, Socket.close, Client.stop, connects, hab, hw,
          Client.check_deadline, hle, Attempt.finish, SteadyTimer.expires_at,
          SteadyTimer.cancel, SteadyTimer.async_wait, Connecting, Socket.async_connect,
          SteadyTimer.expires_after]

theorem run_attempt_fails (eps : List Endpoint) (i t : Nat) (s : Client)
    (a : Attempt) (h : Connecting eps i t s) (ha : a.outcome ≠ .success) :
    ∃ r, run (a.completions t) s = some r ∧
      Event.start_write ∉ r.2 ∧
      ((∃ ep, eps[i + 1]? = some ep ∧ Connecting eps (i + 1) (a.finish t) r.1 ∧
          connects r.2 = [ep] ∧ Event.stop ∉ r.2) ∨
       (eps[i + 1]? = none ∧ r.1.stopped = true ∧ connects r.2 = [] ∧
          r.2.count Event.stop = 1)) := by
  obtain ⟨r1, hr1, hc1, hn1, hs1, hst1⟩ := run_early eps i t a.wakes s h
  obtain ⟨r2, hr2, hs2, hcase⟩ := run_resolution_fails eps i t r1.1 a hc1 ha
  refine ⟨(r2.1, r1.2 ++ r2.2), ?_, ?_, ?_⟩
  · simp only [Attempt.completions, Attempt.early]
    rw [run_append, hr1]
    simp only [hr2]
  · simp [hs1, hs2]
  · rcases hcase with ⟨ep, hep, hconn, hc, hstop⟩ | ⟨hnone, hstopped, hc, hstop⟩
    · exact Or.inl ⟨ep, hep, hconn, by simp [connects_append, hn1, hc], by simp [hst1, hstop]⟩
    · exact Or.inr ⟨hnone, hstopped, by simp [connects_append, hn1, hc],
        by simp [List.count_append, List.count_eq_zero_of_not_mem hst1, hstop]⟩

theorem schedule_cons (a : Attempt) (rest : List Attempt) (t : Nat) :
    schedule (a :: rest) t = a.completions t ++ schedule rest (a.finish t) := rfl

theorem run_success (eps : List Endpoint) (i t : Nat) (s : Client) (a : Attempt)
    (h : Connecting eps i t s) (ha : a.outcome = .success) :
    ∃ r, run (schedule [a] t) s = some r ∧ connects r.2 = [] ∧
      r.2.count Event.start_write = 1 ∧ r.2.count Event.stop = 0 ∧
      (r.1.stopped = false ∧ r.1.socket = { is_open := true, ops := [.write] }) := by
  obtain ⟨r1, hr1, hc1, hn1, hs1, hst1⟩ := run_early eps i t a.wakes s h
  have key : ∃ r, run (a.resolution t) r1.1 = some r ∧ connects r.2 = [] ∧
      r.2.count Event.start_write = 1 ∧ r.2.count Event.stop = 0 ∧
      (r.1.stopped = false ∧ r.1.socket = { is_open := true, ops := [.write] }) := by
    generalize r1.1 = s1 at hc1
    obtain ⟨stopped, endpoints, ⟨is_open, ops⟩, buf, ⟨expiry, waiting, aborted⟩, hb⟩ := s1
    obtain ⟨h1, h2, h3, h4, h5⟩ := hc1
    simp only at h1 h2 h3 h4 h5
    simp only [Socket.mk.injEq] at h3
    obtain ⟨h3a, h3b⟩ := h3
    subst h1 h2 h3a h3b h4
    simp [Attempt.resolution, ha, run, deliver, take_connect, Client.handle_connect,
      Client.start_write, connects, Socket.async_write]
  obtain ⟨r2, hr2, hn2, hs2, hst2, hstopped⟩ := key
  refine ⟨(r2.1, r1.2 ++ r2.2), ?_, ?_, ?_, ?_, hstopped⟩
  · simp only [schedule, List.append_nil, Attempt.completions, Attempt.early]
    rw [run_append, hr1]
    simp only [hr2]
  · simp [connects_append, hn1, hn2]
  · simp [List.count_append, List.count_eq_zero_of_not_mem hs1, hs2]
  · simp [List.count_append, List.count_eq_zero_of_not_mem hst1, hst2]

theorem run_fallback_succeeds (eps : List Endpoint) (last : Attempt)
    (hlast : last.outcome = .success) :
    ∀ (fails : List Attempt) (i t : Nat) (s : Client), Connecting eps i t s →
      (∀ a ∈ fails, a.outcome ≠ .success) → i + fails.length < eps.length →
      ∃ r, run (schedule (fails ++ [last]) t) s = some r ∧
        connects r.2 = (eps.drop (i + 1)).take fails.length ∧
        r.2.count Event.start_write = 1 ∧ r.2.count Event.stop = 0 ∧
        (r.1.stopped = false ∧ r.1.socket = { is_open := true, ops := [.write] }) := by
  intro fails
  induction fails with
  | nil =>
    intro i t s h _ _
    simpa using run_success eps i t s last h hlast
  | cons a rest ih =>
    intro i t s h hall hlen
    obtain ⟨r1, hr1, hsw, hcase⟩ :=
      run_attempt_fails eps i t s a h (hall a (List.mem_cons_self _ _))
    rcases hcase with ⟨ep, hep, hconn, hc, hstop⟩ | ⟨hnone, _⟩
    · have hlen2 : i + 1 + rest.length < eps.length := by
        simp only [List.length_cons] at hlen; omega
      obtain ⟨r2, hr2, hc2, hsw2, hst2, hstopped⟩ :=
        ih (i + 1) (a.finish t) r1.1 hconn
          (fun b hb => hall b (List.mem_cons_of_mem _ hb)) hlen2
      refine ⟨(r2.1, r1.2 ++ r2.2), ?_, ?_, ?_, ?_, hstopped⟩
      · rw [List.cons_append, schedule_cons, run_append, hr1]
        simp only [hr2]
      · have hlt : i + 1 < eps.length := by omega
        have hget : eps[i + 1] = ep := by
          have := List.getElem?_eq_getElem hlt
          rw [this] at hep
          exact Option.some.inj hep
        simp only [connects_append, hc, hc2, List.length_cons]
        rw [List.drop_eq_getElem_cons hlt, List.take_succ_cons, hget]
        rfl
      · simp only [List.count_append, hsw2, List.count_eq_zero_of_not_mem hsw]
      · simp only [List.count_append, hst2, List.count_eq_zero_of_not_mem hstop]
    · exfalso
      rw [List.getElem?_eq_none_iff] at hnone
      simp only [List.length_cons] at hlen
      omega

theorem run_all_fail (eps : List Endpoint) :
    ∀ (fails : List Attempt) (i t : Nat) (s : Client), Connecting eps i t s →
      (∀ a ∈ fails, a.outcome ≠ .success) → i < eps.length → i + fails.length = eps.length →
      ∃ r, run (schedule fails t) s = some r ∧
        connects r.2 = eps.drop (i + 1) ∧
        r.2.count Event.start_write = 0 ∧ r.2.count Event.stop = 1 ∧ r.1.stopped = true := by
  intro fails
  induction fails with
  | nil =>
    intro i t s _ _ hi hlen
    simp only [List.length_nil] at hlen
    omega
  | cons a rest ih =>
    intro i t s h hall hi hlen
    simp only [List.length_cons] at hlen
    obtain ⟨r1, hr1, hsw, hcase⟩ :=
      run_attempt_fails eps i t s a h (hall a (List.mem_cons_self _ _))
    rcases hcase with ⟨ep, hep, hconn, hc, hstop⟩ | ⟨hnone, hstopped, hc, hstop⟩
    · have hlt : i + 1 < eps.length := by
        by_contra hcon
        rw [List.getElem?_eq_none (by omega)] at hep
        exact Option.noConfusion hep
      obtain ⟨r2, hr2, hc2, hsw2, hst2, hstopped⟩ :=
        ih (i + 1) (a.finish t) r1.1 hconn
          (fun b hb => hall b (List.mem_cons_of_mem _ hb)) hlt (by omega)
      refine ⟨(r2.1, r1.2 ++ r2.2), ?_, ?_, ?_, ?_, hstopped⟩
      · rw [schedule_cons, run_append, hr1]
        simp only [hr2]
      · have hget : eps[i + 1] = ep := by
          have := List.getElem?_eq_getElem hlt
          rw [this] at hep
          exact Option.some.inj hep
        simp only [connects_append, hc, hc2]
        rw [List.drop_eq_getElem_cons hlt, hget]
        rfl
      · simp only [List.count_append, hsw2, List.count_eq_zero_of_not_mem hsw]
      · simp only [List.count_append, hst2, List.count_eq_zero_of_not_mem hstop]
    · rw [List.getElem?_eq_none_iff] at hnone
      have hrest : rest = [] := List.eq_nil_of_length_eq_zero (by omega)
      subst hrest
      refine ⟨r1, ?_, ?_, List.count_eq_zero_of_not_mem hsw, hstop, hstopped⟩
      · rw [schedule_cons, run_append, hr1]
        simp [schedule, run]
      · rw [hc, List.drop_eq_nil_of_le hnone]

theorem start_connecting (ep : Endpoint) (eps : List Endpoint) (now : Nat) :
    Connecting (ep :: eps) 0 now (Client.start (ep :: eps) now Client.init).1 ∧
      (Client.start (ep :: eps) now Client.init).2 =
        [Event.cout (.trying ep), Event.async_connect ep, Event.async_wait] := by
  simp [Client.start, Client.start_connect, Client.init, Connecting, Socket.async_connect,
    SteadyTimer.expires_after, SteadyTimer.expires_at, SteadyTimer.cancel,
    SteadyTimer.async_wait]

/-- Claim C1. For every endpoint sequence of length N, at least one, and every sequence of
N attempts of which the first N-1 end in a failure or a timeout and the last succeeds,
`start` followed by the completions of these attempts runs to the end; the connect attempts
issued are exactly the endpoints, in their order; `start_write` is entered once; `stop` is
never called; the client ends not stopped, its socket open, the first write of the exchange
loop the one outstanding operation. Each attempt may see any number of watchdog wakes before
its deadline. -/
theorem connect_fallback_reaches_exchange_loop (endpoints : List Endpoint)
    (fails : List Attempt) (last : Attempt) (now : Nat)
    (hlen : fails.length + 1 = endpoints.length)
    (hfail : ∀ a ∈ fails, a.outcome ≠ Outcome.success)
    (hlast : last.outcome = Outcome.success) :
    ∃ s tr, session endpoints now (schedule (fails ++ [last]) now) = some (s, tr) ∧
      connects tr = endpoints ∧ tr.count Event.start_write = 1 ∧ tr.count Event.stop = 0 ∧
      s.stopped = false ∧ s.socket = { is_open := true, ops := [SocketOp.write] } := by
  cases endpoints with
  | nil => simp at hlen
  | cons ep eps =>
    obtain ⟨hconn, hev⟩ := start_connecting ep eps now
    simp only [List.length_cons] at hlen
    obtain ⟨r, hr, hc, hsw, hst, hlive⟩ :=
      run_fallback_succeeds (ep :: eps) last hlast fails 0 now _ hconn hfail
        (by simp only [List.length_cons]; omega)
    refine ⟨r.1, (Client.start (ep :: eps) now Client.init).2 ++ r.2, ?_, ?_, ?_, ?_, hlive⟩
    · simp only [session, hr]
    · rw [hev, connects_append, hc]
      have : fails.length = eps.length := by omega
      simp [connects, this]
    · rw [hev, List.count_append, hsw]; simp
    · rw [hev, List.count_append, hst]; simp

/-- Claim C2. For every endpoint sequence, the empty one included, whose attempts all end in
a failure or a timeout, `start` followed by the completions of these attempts runs to the
end; `stop` is called once; the client ends stopped; `start_write` is never entered. Every
endpoint was tried, in order. -/
theorem connect_exhausted_stops_once (endpoints : List Endpoint)
    (fails : List Attempt) (now : Nat)
    (hlen : fails.length = endpoints.length)
    (hfail : ∀ a ∈ fails, a.outcome ≠ Outcome.success) :
    ∃ s tr, session endpoints now (schedule fails now) = some (s, tr) ∧
      tr.count Event.stop = 1 ∧ s.stopped = true ∧ tr.count Event.start_write = 0 ∧
      connects tr = endpoints := by
  cases endpoints with
  | nil =>
    have : fails = [] := List.eq_nil_of_length_eq_zero hlen
    subst this
    refine ⟨_, _, rfl, ?_, ?_, ?_, ?_⟩ <;>
      simp [schedule, run, Client.start, Client.start_connect, Client.init,
        Client.stop, connects]
  | cons ep eps =>
    obtain ⟨hconn, hev⟩ := start_connecting ep eps now
    simp only [List.length_cons] at hlen
    obtain ⟨r, hr, hc, hsw, hst, hstopped⟩ :=
      run_all_fail (ep :: eps) fails 0 now _ hconn hfail
        (by simp) (by simp only [List.length_cons]; omega)
    refine ⟨r.1, (Client.start (ep :: eps) now Client.init).2 ++ r.2, ?_, ?_, hstopped, ?_, ?_⟩
    · simp only [session, hr]
    · rw [hev, List.count_append, hst]; simp
    · rw [hev, List.count_append, hsw]; simp
    · rw [hev, connects_append, hc]
      simp [connects]

theorem stop_stop (s : Client) : s.stop.1.stop.1 = s.stop.1 := by
  simp [Client.stop, Socket.close, SteadyTimer.cancel]

theorem stop_times_succ (n : Nat) (s : Client) : stop_times (n + 1) s = s.stop.1 := by
  induction n generalizing s with
  | zero => rfl
  | succ n ih =>
    show stop_times (n + 1) s.stop.1 = s.stop.1
    rw [ih, stop_stop]

/-- Claim C5. Calling `stop` on the state left by `stop` changes nothing, and the state after
any number `n + 1` of calls is the state after one: stopped, the socket closed, no wait
armed on the watchdog timer nor on the heartbeat timer, the input buffer and the endpoint
list as they were. -/
theorem stop_idempotent (s : Client) (n : Nat) :
    s.stop.1.stop.1 = s.stop.1 ∧
    stop_times (n + 1) s = s.stop.1 ∧
    (stop_times (n + 1) s).stopped = true ∧
    (stop_times (n + 1) s).socket.is_open = false ∧
    (stop_times (n + 1) s).deadline.waiting = 0 ∧
    (stop_times (n + 1) s).heartbeat_timer.waiting = 0 ∧
    (stop_times (n + 1) s).input_buffer = s.input_buffer ∧
    (stop_times (n + 1) s).endpoints = s.endpoints := by
  rw [stop_times_succ]
  refine ⟨stop_stop s, rfl, ?_, ?_, ?_, ?_, ?_, ?_⟩ <;>
    simp [Client.stop, Socket.close, SteadyTimer.cancel]

theorem deliver_stopped (c : Completion) (s : Client) (r : Client × List Event)
    (hs : s.stopped = true) (h : deliver c s = some r) :
    r.1.stopped = true ∧ r.2 = [] ∧ r.1.socket.is_open = s.socket.is_open ∧
      r.1.deadline.expiry = s.deadline.expiry ∧ r.1.endpoints = s.endpoints := by
  cases c with
  | connect error now =>
    simp only [deliver] at h
    split at h
    · exact Option.noConfusion h
    · simp [Client.handle_connect, hs] at h
      subst h
      simp [hs]
  | read data error n =>
    simp only [deliver] at h
    split at h
    · simp [Client.handle_read, hs] at h
      subst h
      simp [hs]
    · exact Option.noConfusion h
  | write error token ignored_error =>
    simp only [deliver] at h
    split at h
    · simp [Client.handle_write, hs] at h
      subst h
      simp [hs]
    · exact Option.noConfusion h
  | wait now =>
    simp only [deliver] at h
    split at h
    · simp [Client.check_deadline, hs] at h
      subst h
      simp [hs]
    · split at h
      · simp [Client.check_deadline, hs] at h
        subst h
        simp [hs]
      · exact Option.noConfusion h

theorem run_stopped (cs : List Completion) :
    ∀ (s : Client) (r : Client × List Event), s.stopped = true → run cs s = some r →
      r.1.stopped = true ∧ r.2 = [] ∧ r.1.socket.is_open = s.socket.is_open ∧
        r.1.deadline.expiry = s.deadline.expiry ∧ r.1.endpoints = s.endpoints := by
  induction cs with
  | nil =>
    intro s r hs h
    simp only [run, Option.some.injEq] at h
    subst h
    simp [hs]
  | cons c cs ih =>
    intro s r hs h
    rw [run_cons] at h
    cases hd : deliver c s with
    | none => rw [hd] at h; exact Option.noConfusion h
    | some r1 =>
      rw [hd] at h
      simp only at h
      obtain ⟨h1, h2, h3, h4, h5⟩ := deliver_stopped c s r1 hs hd
      cases hr : run cs r1.1 with
      | none => rw [hr] at h; exact Option.noConfusion h
      | some r2 =>
        rw [hr] at h
        simp only [Option.some.injEq] at h
        obtain ⟨g1, g2, g3, g4, g5⟩ := ih r1.1 r2 h1 hr
        subst h
        simp [g1, g2, g3, g4, g5, h2, h3, h4, h5]

/-- Claim C6. In a stopped client, `handle_connect`, `handle_read`, `handle_write` and
`check_deadline` return the state unchanged and produce no event, for every argument, and
`start_write` returns the state unchanged with no event but the record of its call. Hence
any sequence of completions delivered to a stopped client leaves it stopped, with the
socket, the deadline and the endpoints as they were, and issues no connect, read, write,
wait or output. -/
theorem post_stop_completions_suppressed (s : Client) (hs : s.stopped = true) :
    (∀ error endpoint_iter now, Client.handle_connect error endpoint_iter now s = (s, [])) ∧
    (∀ error n, Client.handle_read error n s = some (s, [])) ∧
    (∀ error token ignored_error,
      Client.handle_write error token ignored_error s = some (s, [])) ∧
    Client.start_write s = (s, [Event.start_write]) ∧
    (∀ now, Client.check_deadline now s = (s, [])) ∧
    (∀ cs r, run cs s = some r →
      r.1.stopped = true ∧ r.2 = [] ∧ r.1.socket.is_open = s.socket.is_open ∧
        r.1.deadline.expiry = s.deadline.expiry ∧ r.1.endpoints = s.endpoints) := by
  refine ⟨?_, ?_, ?_, ?_, ?_, ?_⟩
  · intro error endpoint_iter now; simp [Client.handle_connect, hs]
  · intro error n; simp [Client.handle_read, hs]
  · intro error token ignored_error; simp [Client.handle_write, hs]
  · simp [Client.start_write, hs]
  · intro now; simp [Client.check_deadline, hs]
  · intro cs r h; exact run_stopped cs s r hs h

/-- Claim C9. In a client that is not stopped, `check_deadline` with the deadline at or
before the clock reading closes the socket and sets the deadline to the maximum time point;
with the deadline after the clock reading it leaves the socket and the deadline as they
were. In both cases the stopped flag, the buffer, the endpoints and the outstanding socket
operations (with the endpoint position bound into a connect) are unchanged, and exactly one
watchdog wait is issued: the only event, and one more wait handler to run. -/
theorem check_deadline_step (s : Client) (now : Nat) (hs : s.stopped = false) :
    (s.deadline.expiry.le_now now = true →
      (Client.check_deadline now s).1.socket.is_open = false ∧
      (Client.check_deadline now s).1.deadline.expiry = TimePoint.max) ∧
    (s.deadline.expiry.le_now now = false →
      (Client.check_deadline now s).1.socket = s.socket ∧
      (Client.check_deadline now s).1.deadline.expiry = s.deadline.expiry) ∧
    (Client.check_deadline now s).1.stopped = false ∧
    (Client.check_deadline now s).1.input_buffer = s.input_buffer ∧
    (Client.check_deadline now s).1.endpoints = s.endpoints ∧
    (Client.check_deadline now s).1.socket.ops = s.socket.ops ∧
    (Client.check_deadline now s).2 = [Event.async_wait] ∧
    (Client.check_deadline now s).1.deadline.waiting +
        (Client.check_deadline now s).1.deadline.aborted =
      s.deadline.waiting + s.deadline.aborted + 1 := by
  cases hle : s.deadline.expiry.le_now now <;>
    simp [Client.check_deadline, hs, hle, Socket.close, SteadyTimer.expires_at,
      SteadyTimer.cancel, SteadyTimer.async_wait] <;> omega

theorem exchanges_append (a b : List Event) :
    exchanges (a ++ b) = exchanges a ++ exchanges b := by
  induction a with
  | nil => rfl
  | cons e a ih => cases e <;> simp [exchanges, ih]

theorem alternates_from_snoc (l : List Exchange) :
    ∀ x : Exchange, alternates_from x l = true →
      (l.length % 2 = 0 → alternates_from x (l ++ [x]) = true) ∧
      (l.length % 2 = 1 → ∀ y, y ≠ x → alternates_from x (l ++ [y]) = true) := by
  induction l with
  | nil =>
    intro x _
    refine ⟨fun _ => ?_, fun h => ?_⟩
    · cases x <;> rfl
    · simp at h
  | cons a l ih =>
    intro x h
    cases x <;> cases a <;> simp only [alternates_from] at h <;>
      first
        | exact absurd h (by decide)
        | skip
    · obtain ⟨h0, h1⟩ := ih .read h
      refine ⟨fun hl => ?_, fun hl y hy => ?_⟩
      · simp only [List.length_cons] at hl
        simp only [List.cons_append, alternates_from]
        exact h1 (by omega) .write (by decide)
      · simp only [List.length_cons] at hl
        simp only [List.cons_append, alternates_from]
        cases y
        · exact absurd rfl hy
        · exact h0 (by omega)
    · obtain ⟨h0, h1⟩ := ih .write h
      refine ⟨fun hl => ?_, fun hl y hy => ?_⟩
      · simp only [List.length_cons] at hl
        simp only [List.cons_append, alternates_from]
        exact h1 (by omega) .read (by decide)
      · simp only [List.length_cons] at hl
        simp only [List.cons_append, alternates_from]
        cases y
        · exact h0 (by omega)
        · exact absurd rfl hy

theorem start_connect_inv (i now : Nat) (s : Client) (h : s.socket.ops = []) :
    exchanges (Client.start_connect i now s).2 = [] ∧
      ((Client.start_connect i now s).1.socket.ops = [] ∨
        ∃ j, (Client.start_connect i now s).1.socket.ops = [.connect j]) := by
  unfold Client.start_connect
  split
  · simp [exchanges, Socket.async_connect, h]
  · simp [Client.stop, exchanges, Socket.close, h]

theorem deliver_inv (c : Completion) (s : Client) (tr : List Event) (r : Client × List Event)
    (hinv : Inv s tr) (h : deliver c s = some r) : Inv r.1 (tr ++ r.2) := by
  obtain ⟨halt, hops⟩ := hinv
  cases c with
  | connect error now =>
    simp only [deliver] at h
    split at h
    · exact Option.noConfusion h
    · rename_i i ops htake
      simp only [Option.some.injEq] at h
      rcases hops with h0 | ⟨j, hj, he⟩ | ⟨hw, _⟩ | ⟨hr, _⟩
      · rw [h0] at htake; simp [take_connect] at htake
      · rw [hj] at htake
        simp only [take_connect, Option.some.injEq, Prod.mk.injEq] at htake
        obtain ⟨hij, hnil⟩ := htake
        subst hij hnil
        subst h
        unfold Client.handle_connect
        simp only
        split
        · exact ⟨by simpa using halt, Or.inl rfl⟩
        · split
          · obtain ⟨g1, g2⟩ := start_connect_inv (j + 1) now
              { s with socket := { s.socket with ops := [] } } rfl
            refine ⟨?_, ?_⟩
            · simp only [exchanges_append, exchanges, g1, he]; rfl
            · rcases g2 with g2 | ⟨k, g2⟩
              · exact Or.inl g2
              · exact Or.inr (Or.inl ⟨k, g2, by simp [exchanges_append, exchanges, g1, he]⟩)
          · split
            · obtain ⟨g1, g2⟩ := start_connect_inv (j + 1) now
                { s with socket := Socket.close { s.socket with ops := [] } } rfl
              refine ⟨?_, ?_⟩
              · simp only [exchanges_append, exchanges, g1, he]; rfl
              · rcases g2 with g2 | ⟨k, g2⟩
                · exact Or.inl g2
                · exact Or.inr (Or.inl ⟨k, g2, by simp [exchanges_append, exchanges, g1, he]⟩)
            · rename_i hstopped _ _
              simp [Inv, Client.start_write, hstopped, exchanges_append, he, exchanges,
                Socket.async_write, alternates_from]
      · rw [hw] at htake; simp [take_connect] at htake
      · rw [hr] at htake; simp [take_connect] at htake
  | read data error n =>
    simp only [deliver] at h
    split at h
    · rename_i hmem
      rcases hops with h0 | ⟨j, hj, _⟩ | ⟨hw, _⟩ | ⟨hr, hlen⟩
      · rw [h0] at hmem; simp at hmem
      · rw [hj] at hmem; simp at hmem
      · rw [hw] at hmem; simp at hmem
      · unfold Client.handle_read at h
        simp only [hr, List.erase_cons_head] at h
        split at h
        · simp only [Option.some.injEq] at h
          subst h
          exact ⟨by simpa using halt, Or.inl rfl⟩
        · split at h
          · split at h
            · exact Option.noConfusion h
            · rename_i hstopped _ _ line _
              simp only [Option.some.injEq] at h
              subst h
              have ha := (alternates_from_snoc _ .write halt).1 hlen
              refine ⟨?_, Or.inr (Or.inr (Or.inl ⟨?_, ?_⟩))⟩
              · simp only [Client.start_write, hstopped, exchanges_append]
                split <;> simpa [exchanges] using ha
              · simp [Client.start_write, hstopped, Socket.async_write]
              · simp only [Client.start_write, hstopped, exchanges_append]
                split <;> simp [exchanges] <;> omega
          · simp only [Option.some.injEq] at h
            subst h
            exact ⟨by simpa [exchanges_append, exchanges, Client.stop] using halt,
              Or.inl (by simp [Client.stop, Socket.close])⟩
    · exact Option.noConfusion h
  | write error token ignored_error =>
    simp only [deliver] at h
    split at h
    · rename_i hmem
      rcases hops with h0 | ⟨j, hj, _⟩ | ⟨hw, hlen⟩ | ⟨hr, _⟩
      · rw [h0] at hmem; simp at hmem
      · rw [hj] at hmem; simp at hmem
      · unfold Client.handle_write at h
        simp only [hw, List.erase_cons_head] at h
        split at h
        · simp only [Option.some.injEq] at h
          subst h
          exact ⟨by simpa using halt, Or.inl rfl⟩
        · split at h
          · split at h
            · exact Option.noConfusion h
            · simp only [Option.some.injEq] at h
              subst h
              have ha := (alternates_from_snoc _ .write halt).2 hlen .read (by decide)
              refine ⟨?_, Or.inr (Or.inr (Or.inr ⟨?_, ?_⟩))⟩
              · simpa [Client.start_read, exchanges_append, exchanges] using ha
              · simp [Client.start_read, Socket.async_read_until]
              · simp [Client.start_read, exchanges_append, exchanges]; omega
          · simp only [Option.some.injEq] at h
            subst h
            exact ⟨by simpa [exchanges_append, exchanges, Client.stop] using halt,
              Or.inl (by simp [Client.stop, Socket.close])⟩
      · rw [hr] at hmem; simp at hmem
    · exact Option.noConfusion h
  | wait now =>
    have key : ∀ s1 : Client, s1.socket.ops = s.socket.ops →
        Inv (Client.check_deadline now s1).1 (tr ++ (Client.check_deadline now s1).2) := by
      intro s1 hs1
      unfold Client.check_deadline
      split
      · refine ⟨by simpa using halt, ?_⟩
        simpa [hs1] using hops
      · refine ⟨by simpa [exchanges_append, exchanges] using halt, ?_⟩
        split
        · simpa [hs1, Socket.close, exchanges_append, exchanges] using hops
        · simpa [hs1, exchanges_append, exchanges] using hops
    simp only [deliver] at h
    split at h
    · simp only [Option.some.injEq] at h
      subst h
      exact key _ rfl
    · split at h
      · simp only [Option.some.injEq] at h
        subst h
        exact key _ rfl
      · exact Option.noConfusion h

theorem run_inv (cs : List Completion) :
    ∀ (s : Client) (tr : List Event) (r : Client × List Event), Inv s tr →
      run cs s = some r → Inv r.1 (tr ++ r.2) := by
  induction cs with
  | nil =>
    intro s tr r hinv h
    simp only [run, Option.some.injEq] at h
    subst h
    simpa using hinv
  | cons c cs ih =>
    intro s tr r hinv h
    rw [run_cons] at h
    cases hd : deliver c s with
    | none => rw [hd] at h; exact Option.noConfusion h
    | some r1 =>
      rw [hd] at h
      simp only at h
      cases hr : run cs r1.1 with
      | none => rw [hr] at h; exact Option.noConfusion h
      | some r2 =>
        rw [hr] at h
        simp only [Option.some.injEq] at h
        subst h
        have := ih r1.1 (tr ++ r1.2) r2 (deliver_inv c s tr r1 hinv hd) hr
        simpa [List.append_assoc] using this

theorem start_inv (endpoints : List Endpoint) (now : Nat) :
    Inv (Client.start endpoints now Client.init).1 (Client.start endpoints now Client.init).2 := by
  obtain ⟨g1, g2⟩ := start_connect_inv 0 now { Client.init with endpoints := endpoints } rfl
  refine ⟨?_, ?_⟩
  · simp only [Client.start, exchanges_append, g1, exchanges]; rfl
  · rcases g2 with g2 | ⟨k, g2⟩
    · exact Or.inl g2
    · exact Or.inr (Or.inl ⟨k, g2, by simp [Client.start, exchanges_append, exchanges, g1]⟩)

theorem session_inv (endpoints : List Endpoint) (now : Nat) (cs : List Completion)
    (s : Client) (tr : List Event) (h : session endpoints now cs = some (s, tr)) : Inv s tr := by
  unfold session at h
  cases hr : run cs (Client.start endpoints now Client.init).1 with
  | none => rw [hr] at h; exact Option.noConfusion h
  | some r =>
    rw [hr] at h
    simp only [Option.some.injEq, Prod.mk.injEq] at h
    obtain ⟨h1, h2⟩ := h
    subst h1 h2
    exact run_inv cs _ _ r (start_inv endpoints now) hr

theorem inv_ops_le_one (s : Client) (tr : List Event) (h : Inv s tr) :
    s.socket.ops.length ≤ 1 := by
  rcases h.2 with h0 | ⟨j, hj, _⟩ | ⟨hw, _⟩ | ⟨hr, _⟩
  · simp [h0]
  · simp [hj]
  · simp [hw]
  · simp [hr]

theorem start_connect_exchanges (i now : Nat) (s : Client) :
    exchanges (Client.start_connect i now s).2 = [] := by
  unfold Client.start_connect
  split <;> rfl

theorem deliver_origin (c : Completion) (s : Client) (r : Client × List Event)
    (h : deliver c s = some r) :
    (Exchange.write ∈ exchanges r.2 → c.is_connect = true ∨ c.is_read = true) ∧
      (Exchange.read ∈ exchanges r.2 → c.is_write = true) := by
  cases c with
  | connect error now =>
    refine ⟨fun _ => Or.inl rfl, fun hmem => ?_⟩
    exfalso
    simp only [deliver] at h
    split at h
    · exact Option.noConfusion h
    · simp only [Option.some.injEq] at h
      subst h
      revert hmem
      unfold Client.handle_connect
      simp only
      split
      · simp [exchanges]
      · split
        · simp [exchanges, start_connect_exchanges]
        · split
          · simp [exchanges, start_connect_exchanges]
          · unfold Client.start_write
            split <;> simp [exchanges]
  | read data error n =>
    refine ⟨fun _ => Or.inr rfl, fun hmem => ?_⟩
    exfalso
    simp only [deliver] at h
    split at h
    · revert hmem
      unfold Client.handle_read at h
      split at h
      · simp only [Option.some.injEq] at h
        subst h
        simp [exchanges]
      · split at h
        · split at h
          · exact Option.noConfusion h
          · simp only [Option.some.injEq] at h
            subst h
            unfold Client.start_write
            split <;> split <;> simp [exchanges]
        · simp only [Option.some.injEq] at h
          subst h
          simp [exchanges, Client.stop]
    · exact Option.noConfusion h
  | write error token ignored_error =>
    refine ⟨fun hmem => ?_, fun _ => rfl⟩
    exfalso
    simp only [deliver] at h
    split at h
    · revert hmem
      unfold Client.handle_write at h
      split at h
      · simp only [Option.some.injEq] at h
        subst h
        simp [exchanges]
      · split at h
        · split at h
          · exact Option.noConfusion h
          · simp only [Option.some.injEq] at h
            subst h
            simp [exchanges, Client.start_read]
        · simp only [Option.some.injEq] at h
          subst h
          simp [exchanges, Client.stop]
    · exact Option.noConfusion h
  | wait now =>
    have key : ∀ s1 : Client, exchanges (Client.check_deadline now s1).2 = [] := by
      intro s1
      unfold Client.check_deadline
      split <;> rfl
    simp only [deliver] at h
    split at h
    · simp only [Option.some.injEq] at h
      subst h
      simp [key]
    · split at h
      · simp only [Option.some.injEq] at h
        subst h
        simp [key]
      · exact Option.noConfusion h

/-- Claim C10. In every state reached by `start` on a fresh client followed by any sequence
of completions, each delivered to the handler of an operation that is outstanding, at most
one connect, read or write is outstanding; the asynchronous writes and reads issued so far
alternate strictly, beginning with a write; and the next handler to run issues a write only
if it resolves a connect or a read, issues a read only if it resolves a write, and again
leaves at most one operation outstanding. -/
theorem single_pending_operation (endpoints : List Endpoint) (now : Nat)
    (cs : List Completion) (s : Client) (tr : List Event)
    (h : session endpoints now cs = some (s, tr)) :
    s.socket.ops.length ≤ 1 ∧
    alternates_from Exchange.write (exchanges tr) = true ∧
    ∀ c r, deliver c s = some r →
      (Exchange.write ∈ exchanges r.2 → c.is_connect = true ∨ c.is_read = true) ∧
      (Exchange.read ∈ exchanges r.2 → c.is_write = true) ∧
      r.1.socket.ops.length ≤ 1 := by
  have hinv := session_inv endpoints now cs s tr h
  refine ⟨inv_ops_le_one s tr hinv, hinv.1, fun c r hd => ?_⟩
  obtain ⟨h1, h2⟩ := deliver_origin c s r hd
  exact ⟨h1, h2, inv_ops_le_one _ _ (deliver_inv c s tr r hinv hd)⟩

theorem handle_read_extracts (s : Client) (p : Byte) (msg rest : List Byte)
    (hs : s.stopped = false) (hb : s.input_buffer = p :: (msg ++ 0 :: rest)) :
    ∃ r, Client.handle_read false (msg.length + 2) s = some r ∧
      echoes r.2 = [msg ++ 0 :: rest.take 1] ∧ r.1.input_buffer = rest := by
  have h1 : List.take (msg.length + 2) (msg ++ 0 :: rest) = msg ++ 0 :: rest.take 1 := by
    rw [List.take_append_eq_append_take]
    simp [List.take_of_length_le]
  have h2 : List.drop (msg.length + 2) (p :: (msg ++ 0 :: rest)) = rest := by
    induction msg with
    | nil => rfl
    | cons b msg ih => simp
  simp [Client.handle_read, hs, hb, substr, erase_front, h1, h2, Client.start_write, echoes]

/-- Claim C3, on the code. The frame of the scenario, the byte `x`, then `pong`, then the
terminator, is read with `n = 6`: the line handed to the output is `pong` followed by the
terminator byte, five bytes and not the four of the message. -/
theorem handle_read_line_keeps_terminator :
    (Client.handle_read false 6 (connected [120, 112, 111, 110, 103, 0])).map
        (fun r => (echoes r.2, r.1.input_buffer)) =
      some ([[112, 111, 110, 103, 0]], []) := by
  decide

/-- Claim C4, on the code. The frame of the empty message, one leading byte and the
terminator, is read with `n = 2`: the extracted line is the terminator byte, it is not
empty, and it is handed to the output before the next write is started. -/
theorem handle_read_echoes_empty_message :
    (Client.handle_read false 2 (connected [120, 0])).map
        (fun r => (echoes r.2, exchanges r.2)) =
      some ([[0]], [Exchange.write]) := by
  decide

theorem handle_connect_success_keeps_deadline (s : Client) (endpoint_iter now : Nat)
    (hs : s.stopped = false) (ho : s.socket.is_open = true) :
    (Client.handle_connect false endpoint_iter now s).1.deadline = s.deadline := by
  simp [Client.handle_connect, hs, ho, Client.start_write]

/-- Claim C7, on the code. One endpoint, the connect issued at second 0 succeeds at second 1:
the deadline still expires at second 60. When the watchdog wakes at second 60 it closes the
socket of the established connection. -/
theorem connect_deadline_outlives_connect :
    (session [endpoint_a] 0 [.connect false 1]).map
        (fun r => (r.1.deadline.expiry, r.1.socket.is_open, exchanges r.2)) =
      some (TimePoint.time 60, true, [Exchange.write]) ∧
    (session [endpoint_a] 0 [.connect false 1, .wait 60]).map
        (fun r => (r.1.deadline.expiry, r.1.socket.is_open, r.1.stopped)) =
      some (TimePoint.max, false, false) := by
  decide

theorem takeWhile_nonzero_append_zeros (l : List Byte) (n : Nat) :
    (l ++ List.replicate n 0).takeWhile (fun b => b != 0) = l.takeWhile (fun b => b != 0) := by
  induction l with
  | nil => cases n <;> simp [List.replicate]
  | cons b l ih =>
    by_cases hb : b = 0
    · simp [hb]
    · simp [hb, ih]

theorem append_zeros_split (l : List Byte) (n : Nat) :
    ∃ rest, l ++ List.replicate (n + 1) 0 = l.takeWhile (fun b => b != 0) ++ 0 :: rest := by
  induction l with
  | nil => exact ⟨List.replicate n 0, by simp [List.replicate]⟩
  | cons b l ih =>
    by_cases hb : b = 0
    · exact ⟨l ++ List.replicate (n + 1) 0, by simp [hb]⟩
    · obtain ⟨rest, hrest⟩ := ih
      exact ⟨rest, by simp [hb, hrest]⟩

theorem takeWhile_nonzero_take (pre rest : List Byte) (k : Nat)
    (hpre : ∀ b ∈ pre, (b != 0) = true) (hk : pre.length ≤ k) :
    ((pre ++ 0 :: rest).take k).takeWhile (fun b => b != 0) = pre := by
  rw [List.take_append_eq_append_take, List.take_of_length_le hk,
    List.takeWhile_append_of_pos hpre]
  cases k - pre.length <;> simp

theorem outbound_message_eq (token : List Byte) (hfit : token.length < 128) :
    outbound_message token = some (token.takeWhile (fun b => b != 0) ++ [0]) := by
  have hpre : ∀ b ∈ token.takeWhile (fun b => b != 0), (b != 0) = true := by
    intro b hb
    exact List.mem_takeWhile_imp (p := fun b => b != 0) hb
  have hlen : (token.takeWhile (fun b => b != 0)).length ≤ token.length :=
    (List.takeWhile_sublist _).length_le
  obtain ⟨rest, hrest⟩ := append_zeros_split token (127 - token.length)
  have h128 : 128 - token.length = 127 - token.length + 1 := by omega
  have hmsg : (token ++ List.replicate (128 - token.length) 0).length = 128 := by
    simp; omega
  have hrl : (token.takeWhile (fun b => b != 0)).length + rest.length + 1 = 128 := by
    have := congrArg List.length hrest
    rw [← h128, hmsg] at this
    simp at this
    omega
  rw [← h128] at hrest
  have hcat : strcat_s (token ++ List.replicate (128 - token.length) 0) [0, 0] =
      some (token ++ List.replicate (128 - token.length) 0) := by
    unfold strcat_s strnlen_s
    rw [hmsg, hrest, takeWhile_nonzero_take _ _ _ hpre (by omega)]
    simp only [show ([0, 0] : List Byte).takeWhile (fun b => b != 0) = [] from rfl,
      List.length_nil, Nat.add_zero, List.append_nil]
    rw [if_pos (by omega)]
    simp
  unfold outbound_message cin_extract
  rw [if_pos hfit]
  simp only [hcat]
  unfold strnlen_s
  rw [hrest, takeWhile_nonzero_take _ _ _ hpre (by omega)]
  simp [List.take_append_eq_append_take]

set_option maxRecDepth 8000 in
/-- Claim C8 as stated fails. The asynchronous write completed without error, the watchdog
has closed the socket, and `write_some` fails to write the outbound message `ping`: the
client is not stopped, `stop()` is not called, and a read is started. -/
theorem failed_message_write_starts_read :
    (watchdog_closed).stopped = false ∧
    (Client.handle_write false [112, 105, 110, 103] true watchdog_closed).map (fun r => r.2) =
      some [Event.cout Output.send_prompt,
        Event.write_some [112, 105, 110, 103, 0] true,
        Event.async_read_until] ∧
    (Client.handle_write false [112, 105, 110, 103] true watchdog_closed).map
        (fun r => r.1.stopped) = some false ∧
    (Client.handle_write false [112, 105, 110, 103] true watchdog_closed).map
        (fun r => r.1.socket.ops) = some [SocketOp.read_until] := by
  decide

/-- Claim C8, amended. In a client that is not stopped, when the asynchronous write completes
with an error `handle_write` reports it and calls `stop()`: `stopped_` becomes true, no read
is started and nothing is written, whatever the console would supply. When it completes
without error and the token extracted from the console fits the array `message` (at most
127 characters), the characters of the token before its first zero byte and a terminating
zero are passed to `write_some`, and a read is started and the client stays not stopped
whatever the error code of `write_some` is. -/
theorem handle_write_outcomes (s : Client) (token : List Byte) (ignored_error : Bool)
    (hs : s.stopped = false) (hfit : token.length < 128) :
    (∀ input, Client.handle_write true input ignored_error s =
      some ({ s with
                stopped := true
                socket := s.socket.close
                deadline := s.deadline.cancel
                heartbeat_timer := s.heartbeat_timer.cancel },
            [Event.cout Output.heartbeat_error, Event.stop])) ∧
    Client.handle_write false token ignored_error s =
      some ({ s with socket := { s.socket with ops := s.socket.ops ++ [SocketOp.read_until] } },
            [Event.cout Output.send_prompt,
             Event.write_some (token.takeWhile (fun b => b != 0) ++ [0]) ignored_error,
             Event.async_read_until]) := by
  refine ⟨fun input => ?_, ?_⟩
  · simp [Client.handle_write, hs, Client.stop]
  · simp [Client.handle_write, hs, outbound_message_eq token hfit, Client.start_read,
      Socket.async_read_until]

/-- Witness of `handle_write_outcomes`: the connected client, the token `ping`, a failing
`write_some`. -/
theorem handle_write_outcomes_witness :
    (connected []).stopped = false ∧
    ([112, 105, 110, 103] : List Byte).length < 128 ∧
    Client.handle_write false [112, 105, 110, 103] true (connected []) =
      some ({ connected [] with
                socket := { (connected []).socket with
                  ops := (connected []).socket.ops ++ [SocketOp.read_until] } },
            [Event.cout Output.send_prompt,
             Event.write_some
               (([112, 105, 110, 103] : List Byte).takeWhile (fun b => b != 0) ++ [0]) true,
             Event.async_read_until]) :=
  ⟨rfl, by decide,
   (handle_write_outcomes (connected []) [112, 105, 110, 103] true rfl (by decide)).2⟩

/-- Witness of `connect_fallback_reaches_exchange_loop`: two endpoints, the first attempt
times out, the second succeeds after the handler of the aborted wait has run. -/
theorem connect_fallback_reaches_exchange_loop_witness :
    [timed_out].length + 1 = [endpoint_a, endpoint_b].length ∧
    (∀ a ∈ [timed_out], a.outcome ≠ Outcome.success) ∧
    succeeded.outcome = Outcome.success ∧
    ∃ s tr,
      session [endpoint_a, endpoint_b] 0 (schedule ([timed_out] ++ [succeeded]) 0) =
        some (s, tr) ∧
      connects tr = [endpoint_a, endpoint_b] ∧ tr.count Event.start_write = 1 ∧
      tr.count Event.stop = 0 ∧
      s.stopped = false ∧ s.socket = { is_open := true, ops := [SocketOp.write] } :=
  ⟨by decide, by decide, rfl,
   connect_fallback_reaches_exchange_loop [endpoint_a, endpoint_b] [timed_out] succeeded 0
     (by decide) (by decide) rfl⟩

/-- Witness of `connect_exhausted_stops_once`: two endpoints, the first attempt is refused,
the second times out. -/
theorem connect_exhausted_stops_once_witness :
    [refused, timed_out].length = [endpoint_a, endpoint_b].length ∧
    (∀ a ∈ [refused, timed_out], a.outcome ≠ Outcome.success) ∧
    ∃ s tr,
      session [endpoint_a, endpoint_b] 0 (schedule [refused, timed_out] 0) = some (s, tr) ∧
      tr.count Event.stop = 1 ∧ s.stopped = true ∧ tr.count Event.start_write = 0 ∧
      connects tr = [endpoint_a, endpoint_b] :=
  ⟨by decide, by decide,
   connect_exhausted_stops_once [endpoint_a, endpoint_b] [refused, timed_out] 0
     (by decide) (by decide)⟩

/-- Witness of `post_stop_completions_suppressed`: the connected client after `stop`. -/
theorem post_stop_completions_suppressed_witness :
    (connected []).stop.1.stopped = true ∧
    (∀ error endpoint_iter now,
      Client.handle_connect error endpoint_iter now (connected []).stop.1 =
        ((connected []).stop.1, [])) ∧
    (∀ now, Client.check_deadline now (connected []).stop.1 = ((connected []).stop.1, [])) :=
  ⟨rfl,
   (post_stop_completions_suppressed (connected []).stop.1 rfl).1,
   (post_stop_completions_suppressed (connected []).stop.1 rfl).2.2.2.2.1⟩

/-- Witness of `check_deadline_step`: the connected client, whose deadline is second 60,
when the watchdog wakes at second 60. -/
theorem check_deadline_step_witness :
    (connected []).stopped = false ∧
    (connected []).deadline.expiry.le_now 60 = true ∧
    (Client.check_deadline 60 (connected [])).1.socket.is_open = false ∧
    (Client.check_deadline 60 (connected [])).1.deadline.expiry = TimePoint.max ∧
    (Client.check_deadline 60 (connected [])).2 = [Event.async_wait] :=
  ⟨rfl, rfl,
   ((check_deadline_step (connected []) 60 rfl).1 rfl).1,
   ((check_deadline_step (connected []) 60 rfl).1 rfl).2,
   (check_deadline_step (connected []) 60 rfl).2.2.2.2.2.2.1⟩

/-- Witness of `single_pending_operation`: one endpoint, the connect succeeds, the first
write is the one outstanding operation. -/
theorem single_pending_operation_witness :
    session [endpoint_a] 0 [Completion.connect false 1] =
      some (awaiting_outbound, awaiting_outbound_trace) ∧
    awaiting_outbound.socket.ops.length ≤ 1 ∧
    alternates_from Exchange.write (exchanges awaiting_outbound_trace) = true :=
  ⟨by decide,
   (single_pending_operation [endpoint_a] 0 [Completion.connect false 1] awaiting_outbound
      awaiting_outbound_trace (by decide)).1,
   (single_pending_operation [endpoint_a] 0 [Completion.connect false 1] awaiting_outbound
      awaiting_outbound_trace (by decide)).2.1⟩

end AsioClient
